import Mathlib

/-!
Verification of the Obsidian sync daemon (src/obsidian-sync-daemon.py).

The daemon mirrors a directory tree of markdown notes into a CouchDB
database.  The shallow embedding below models, from the source:

* `doc_id_from_path` — `VaultSync._doc_id_from_path` (lines 46-49);
* `sync_file_to_db` — `VaultSync._sync_file_to_db` (lines 51-86);
* `initial_sync` — `VaultSync.initial_sync` (lines 88-99);
* `watch_step` / `delete_branch` / `watch_loop` — `VaultSync.watch_filesystem`
  (lines 101-133).

Paths relative to the vault root are modelled as their component lists
(`FPath`), as produced by `Path.relative_to` on the POSIX host the daemon
runs on (it uses inotify).  The CouchDB client is an external collaborator
and is modelled as a response oracle (`Store`); the store operations the
engine issues are recorded as a trace (`StoreOp`).  Base64 and UTF-8 are
modelled concretely, byte for byte.
-/

/-- Splitting a character list at a separator character; mirrors how a POSIX
path string decomposes into components around the slash character. -/
def splitOnChar (sep : Char) : List Char → List (List Char)
  | [] => [[]]
  | c :: cs =>
    if c = sep then [] :: splitOnChar sep cs
    else
      match splitOnChar sep cs with
      | [] => [[c]]
      | h :: t => (c :: h) :: t

/-- Joining path components with the forward slash: on the POSIX host,
`str(rel_path)` for a relative `pathlib.Path` is exactly the components
joined by a single slash. -/
def joinSlash : List (List Char) → List Char
  | [] => []
  | [x] => x
  | x :: y :: rest => x ++ '/' :: joinSlash (y :: rest)

/-- Model of Python `s.replace("\\", "/")`: the pattern is a single
character, so the replacement maps each backslash character to a slash. -/
def replaceBackslash (l : List Char) : List Char :=
  l.map (fun c => if c = '\\' then '/' else c)

/-- Components of a path string: split on the slash and drop empty pieces
(an absolute path's leading slash yields an empty first piece).  Mirrors
`pathlib.Path(...).parts` minus the root anchor. -/
def strComponents (s : String) : List String :=
  ((splitOnChar '/' s.data).filter (fun l => l ≠ [])).map (fun l => ⟨l⟩)

/-- Whether `needle` occurs as a contiguous sublist of `hay`; model of
Python `needle in hay` on strings. -/
def listContains (needle : List Char) : List Char → Bool
  | [] => needle.isEmpty
  | a :: rest => needle.isPrefixOf (a :: rest) || listContains needle rest

/-- Model of Python `needle in hay` for strings (substring containment). -/
def strContains (hay needle : String) : Bool :=
  listContains needle.data hay.data

/-- Model of Python `s.endswith(suffix)`. -/
def strEndsWith (s suffix : String) : Bool :=
  suffix.data.isSuffixOf s.data

/-- A file path relative to the vault root, as its list of components
(what `Path.relative_to(self.vault_path)` yields). -/
abbrev FPath := List String

/-- Model of `VaultSync._doc_id_from_path` (source lines 46-49): take the
path relative to the vault root, render it as a string (components joined
by the POSIX slash) and replace every backslash with a forward slash. -/
def doc_id_from_path (fp : FPath) : String :=
  ⟨replaceBackslash (joinSlash (fp.map String.data))⟩

/-- A component list that a real POSIX relative path can have: at least one
component, each component nonempty and free of the slash character (a POSIX
filename may contain any other character, backslash included). -/
def validFPath (fp : FPath) : Prop :=
  fp ≠ [] ∧ ∀ c ∈ fp, c.data ≠ [] ∧ '/' ∉ c.data

instance : DecidablePred validFPath := fun fp => by
  unfold validFPath; infer_instance

/-- The path lies under the reserved `.obsidian` tooling subdirectory:
one of its components is exactly `.obsidian`.  This follows the spec's
words ("the path lies under the reserved subdirectory"); the live-watch
code instead tests substring containment on the directory string. -/
def underReserved (fp : FPath) : Prop := ".obsidian" ∈ fp

instance : DecidablePred underReserved := fun fp => by
  unfold underReserved; infer_instance

theorem splitOnChar_no_sep {sep : Char} {l : List Char} (h : sep ∉ l) :
    splitOnChar sep l = [l] := by
  induction l with
  | nil => rfl
  | cons c cs ih =>
    have hc : c ≠ sep := fun e => h (e ▸ List.mem_cons_self c cs)
    have hcs : sep ∉ cs := fun m => h (List.mem_cons_of_mem c m)
    simp [splitOnChar, hc, ih hcs]

theorem splitOnChar_append {sep : Char} {x : List Char} (r : List Char)
    (h : sep ∉ x) :
    splitOnChar sep (x ++ sep :: r) = x :: splitOnChar sep r := by
  induction x with
  | nil => simp [splitOnChar]
  | cons c cs ih =>
    have hc : c ≠ sep := fun e => h (e ▸ List.mem_cons_self c cs)
    have hcs : sep ∉ cs := fun m => h (List.mem_cons_of_mem c m)
    have hr := ih hcs
    simp only [List.cons_append, splitOnChar, if_neg hc]
    rw [show cs.append (sep :: r) = cs ++ sep :: r from rfl, hr]

/-- Splitting undoes joining for a nonempty list of slash-free components. -/
theorem splitOnChar_joinSlash (parts : List (List Char))
    (hne : parts ≠ []) (hval : ∀ p ∈ parts, '/' ∉ p) :
    splitOnChar '/' (joinSlash parts) = parts := by
  induction parts with
  | nil => exact absurd rfl hne
  | cons x xs ih =>
    cases xs with
    | nil =>
      simp only [joinSlash]
      exact splitOnChar_no_sep (hval x (List.mem_cons_self x []))
    | cons y ys =>
      have hx : '/' ∉ x := hval x (List.mem_cons_self x (y :: ys))
      have hrest : ∀ p ∈ y :: ys, '/' ∉ p :=
        fun p hp => hval p (List.mem_cons_of_mem x hp)
      simp only [joinSlash]
      rw [splitOnChar_append _ hx, ih (by simp) hrest]

theorem replaceBackslash_of_no_backslash {l : List Char} (h : '\\' ∉ l) :
    replaceBackslash l = l := by
  induction l with
  | nil => rfl
  | cons c cs ih =>
    have hc : c ≠ '\\' := fun e => h (e ▸ List.mem_cons_self c cs)
    have hcs : '\\' ∉ cs := fun m => h (List.mem_cons_of_mem c m)
    have hr := ih hcs
    simp only [replaceBackslash, List.map_cons, if_neg hc]
    simp only [replaceBackslash] at hr
    rw [hr]

theorem mem_joinSlash {a : Char} {parts : List (List Char)}
    (h : a ∈ joinSlash parts) : a = '/' ∨ ∃ p ∈ parts, a ∈ p := by
  induction parts with
  | nil => simp [joinSlash] at h
  | cons x xs ih =>
    cases xs with
    | nil =>
      simp only [joinSlash] at h
      exact Or.inr ⟨x, List.mem_cons_self x [], h⟩
    | cons y ys =>
      simp only [joinSlash, List.mem_append, List.mem_cons] at h
      rcases h with hx | rfl | hrest
      · exact Or.inr ⟨x, List.mem_cons_self x (y :: ys), hx⟩
      · exact Or.inl rfl
      · rcases ih hrest with h1 | ⟨p, hp, ha⟩
        · exact Or.inl h1
        · exact Or.inr ⟨p, List.mem_cons_of_mem x hp, ha⟩

theorem string_mk_data (s : String) : String.mk s.data = s := rfl

theorem map_mk_map_data (l : List String) :
    (l.map String.data).map String.mk = l := by
  induction l with
  | nil => rfl
  | cons s rest ih => simp only [List.map_cons, string_mk_data, ih]

theorem no_backslash_join {fp : FPath} (hb : ∀ c ∈ fp, '\\' ∉ c.data) :
    '\\' ∉ joinSlash (fp.map String.data) := by
  intro hmem
  rcases mem_joinSlash hmem with h | ⟨p, hp, ha⟩
  · exact absurd h (by decide)
  · obtain ⟨c, hc, rfl⟩ := List.mem_map.mp hp
    exact hb c hc ha

theorem doc_id_data_of_no_backslash {fp : FPath} (hb : ∀ c ∈ fp, '\\' ∉ c.data) :
    (doc_id_from_path fp).data = joinSlash (fp.map String.data) := by
  show replaceBackslash (joinSlash (fp.map String.data)) = _
  exact replaceBackslash_of_no_backslash (no_backslash_join hb)

/-- Claim C1, counterexample: on the POSIX host the daemon runs on, a
backslash is an ordinary filename character, so the single-component path
whose one component is the six characters a backslash b dot m d and the
two-component path a / b.md are distinct non-reserved paths under the vault
root, yet `_doc_id_from_path` (which replaces every backslash by a slash)
sends both to the identifier "a/b.md". -/
theorem doc_id_collision :
    validFPath ["a\\b.md"] ∧ validFPath ["a", "b.md"] ∧
    ¬ underReserved ["a\\b.md"] ∧ ¬ underReserved ["a", "b.md"] ∧
    (["a\\b.md"] : FPath) ≠ ["a", "b.md"] ∧
    doc_id_from_path ["a\\b.md"] = doc_id_from_path ["a", "b.md"] := by
  refine ⟨by decide, by decide, by decide, by decide, by decide, ?_⟩
  decide

/-- Claim C1, amended: `_doc_id_from_path` is injective over the paths
under the vault root whose components contain no backslash character (on
the POSIX host it collapses a backslash in a filename with the directory
separator, see the counterexample), and every identifier it produces is
free of backslashes, so identifiers use forward-slash separators
regardless of the host path-separator convention. -/
theorem doc_id_injective_no_backslash (p q : FPath)
    (hp : validFPath p) (hq : validFPath q)
    (hbp : ∀ c ∈ p, '\\' ∉ c.data) (hbq : ∀ c ∈ q, '\\' ∉ c.data)
    (hne : p ≠ q) :
    doc_id_from_path p ≠ doc_id_from_path q ∧
      '\\' ∉ (doc_id_from_path p).data := by
  constructor
  · intro heq
    apply hne
    have hdp := doc_id_data_of_no_backslash hbp
    have hdq := doc_id_data_of_no_backslash hbq
    have hjoin : joinSlash (p.map String.data) = joinSlash (q.map String.data) := by
      rw [← hdp, ← hdq, heq]
    have hpne : p.map String.data ≠ [] := by
      simpa using hp.1
    have hqne : q.map String.data ≠ [] := by
      simpa using hq.1
    have hpv : ∀ x ∈ p.map String.data, '/' ∉ x := by
      intro x hx
      obtain ⟨c, hc, rfl⟩ := List.mem_map.mp hx
      exact (hp.2 c hc).2
    have hqv : ∀ x ∈ q.map String.data, '/' ∉ x := by
      intro x hx
      obtain ⟨c, hc, rfl⟩ := List.mem_map.mp hx
      exact (hq.2 c hc).2
    have hmaps : p.map String.data = q.map String.data := by
      rw [← splitOnChar_joinSlash (p.map String.data) hpne hpv,
          ← splitOnChar_joinSlash (q.map String.data) hqne hqv, hjoin]
    calc p = (p.map String.data).map String.mk := (map_mk_map_data p).symm
      _ = (q.map String.data).map String.mk := by rw [hmaps]
      _ = q := map_mk_map_data q
  · rw [doc_id_data_of_no_backslash hbp]
    exact no_backslash_join hbp

/-- Claim C1 witness: the amended injectivity at the concrete distinct
paths notes/a.md and notes/b.md. -/
theorem doc_id_injective_no_backslash_witness :
    doc_id_from_path ["notes", "a.md"] ≠ doc_id_from_path ["notes", "b.md"] ∧
      '\\' ∉ (doc_id_from_path ["notes", "a.md"]).data :=
  doc_id_injective_no_backslash ["notes", "a.md"] ["notes", "b.md"]
    (by decide) (by decide) (by decide) (by decide) (by decide)

/-- UTF-8 encoding of one scalar value, as Python `str.encode()` produces
it (the default encoding is UTF-8); bytes are modelled as `Nat` below 256. -/
def utf8EncodeChar (c : Char) : List Nat :=
  if c.toNat < 128 then [c.toNat]
  else if c.toNat < 2048 then [192 + c.toNat / 64, 128 + c.toNat % 64]
  else if c.toNat < 65536 then
    [224 + c.toNat / 4096, 128 + (c.toNat / 64) % 64, 128 + c.toNat % 64]
  else
    [240 + c.toNat / 262144, 128 + (c.toNat / 4096) % 64,
      128 + (c.toNat / 64) % 64, 128 + c.toNat % 64]

/-- UTF-8 encoding of a character sequence. -/
def utf8EncodeList : List Char → List Nat
  | [] => []
  | c :: cs => utf8EncodeChar c ++ utf8EncodeList cs

/-- One step of UTF-8 decoding: consume the bytes of one encoded scalar
value from the front (behaviour on malformed input is immaterial: it is
only ever applied to `utf8EncodeList` output). -/
def utf8Step (b0 : Nat) (rest : List Nat) : Char × List Nat :=
  if b0 < 128 then (Char.ofNat b0, rest)
  else if b0 < 224 then
    match rest with
    | b1 :: rest2 => (Char.ofNat ((b0 - 192) * 64 + (b1 - 128)), rest2)
    | [] => (Char.ofNat 0, [])
  else if b0 < 240 then
    match rest with
    | b1 :: b2 :: rest3 =>
        (Char.ofNat ((b0 - 224) * 4096 + (b1 - 128) * 64 + (b2 - 128)), rest3)
    | _ => (Char.ofNat 0, [])
  else
    match rest with
    | b1 :: b2 :: b3 :: rest4 =>
        (Char.ofNat ((b0 - 240) * 262144 + (b1 - 128) * 4096 +
          (b2 - 128) * 64 + (b3 - 128)), rest4)
    | _ => (Char.ofNat 0, [])

theorem utf8Step_snd_length (b0 : Nat) (rest : List Nat) :
    (utf8Step b0 rest).2.length ≤ rest.length := by
  unfold utf8Step
  repeat' split
  all_goals simp
  all_goals omega

/-- UTF-8 decoding of a whole byte sequence. -/
def utf8Decode : List Nat → List Char
  | [] => []
  | b0 :: rest => (utf8Step b0 rest).1 :: utf8Decode (utf8Step b0 rest).2
termination_by l => l.length
decreasing_by
  have := utf8Step_snd_length b0 rest
  simp only [List.length_cons]
  omega

theorem utf8Decode_cons (b0 : Nat) (rest : List Nat) :
    utf8Decode (b0 :: rest) =
      (utf8Step b0 rest).1 :: utf8Decode (utf8Step b0 rest).2 := by
  rw [utf8Decode]

theorem char_toNat_lt (c : Char) : c.toNat < 1114112 := by
  rcases c.valid with h | ⟨h1, h2⟩
  · show c.val.toNat < 1114112
    omega
  · show c.val.toNat < 1114112
    exact h2

theorem utf8Step_enc (c : Char) (bs : List Nat) :
    ∃ b0 t, utf8EncodeChar c = b0 :: t ∧ utf8Step b0 (t ++ bs) = (c, bs) := by
  have hv := char_toNat_lt c
  have hofnat : Char.ofNat c.toNat = c := Char.ofNat_toNat c
  by_cases h1 : c.toNat < 128
  · refine ⟨c.toNat, [], by rw [utf8EncodeChar, if_pos h1], ?_⟩
    simp only [List.nil_append]
    unfold utf8Step
    rw [if_pos h1, hofnat]
  · by_cases h2 : c.toNat < 2048
    · refine ⟨192 + c.toNat / 64, [128 + c.toNat % 64],
        by rw [utf8EncodeChar, if_neg h1, if_pos h2], ?_⟩
      simp only [List.cons_append, List.nil_append]
      unfold utf8Step
      rw [if_neg (by omega : ¬ 192 + c.toNat / 64 < 128),
        if_pos (by omega : 192 + c.toNat / 64 < 224)]
      show (Char.ofNat ((192 + c.toNat / 64 - 192) * 64 + (128 + c.toNat % 64 - 128)), bs) =
        (c, bs)
      rw [show (192 + c.toNat / 64 - 192) * 64 + (128 + c.toNat % 64 - 128) = c.toNat by
        omega, hofnat]
    · by_cases h3 : c.toNat < 65536
      · refine ⟨224 + c.toNat / 4096, [128 + (c.toNat / 64) % 64, 128 + c.toNat % 64],
          by rw [utf8EncodeChar, if_neg h1, if_neg h2, if_pos h3], ?_⟩
        simp only [List.cons_append, List.nil_append]
        unfold utf8Step
        rw [if_neg (by omega : ¬ 224 + c.toNat / 4096 < 128),
          if_neg (by omega : ¬ 224 + c.toNat / 4096 < 224),
          if_pos (by omega : 224 + c.toNat / 4096 < 240)]
        show (Char.ofNat ((224 + c.toNat / 4096 - 224) * 4096 +
          (128 + (c.toNat / 64) % 64 - 128) * 64 + (128 + c.toNat % 64 - 128)), bs) = (c, bs)
        rw [show (224 + c.toNat / 4096 - 224) * 4096 +
          (128 + (c.toNat / 64) % 64 - 128) * 64 + (128 + c.toNat % 64 - 128) = c.toNat by
          omega, hofnat]
      · refine ⟨240 + c.toNat / 262144,
          [128 + (c.toNat / 4096) % 64, 128 + (c.toNat / 64) % 64, 128 + c.toNat % 64],
          by rw [utf8EncodeChar, if_neg h1, if_neg h2, if_neg h3], ?_⟩
        simp only [List.cons_append, List.nil_append]
        unfold utf8Step
        rw [if_neg (by omega : ¬ 240 + c.toNat / 262144 < 128),
          if_neg (by omega : ¬ 240 + c.toNat / 262144 < 224),
          if_neg (by omega : ¬ 240 + c.toNat / 262144 < 240)]
        show (Char.ofNat ((240 + c.toNat / 262144 - 240) * 262144 +
          (128 + (c.toNat / 4096) % 64 - 128) * 4096 +
          (128 + (c.toNat / 64) % 64 - 128) * 64 + (128 + c.toNat % 64 - 128)), bs) = (c, bs)
        rw [show (240 + c.toNat / 262144 - 240) * 262144 +
          (128 + (c.toNat / 4096) % 64 - 128) * 4096 +
          (128 + (c.toNat / 64) % 64 - 128) * 64 + (128 + c.toNat % 64 - 128) = c.toNat by
          omega, hofnat]

theorem utf8Decode_encodeChar (c : Char) (bs : List Nat) :
    utf8Decode (utf8EncodeChar c ++ bs) = c :: utf8Decode bs := by
  obtain ⟨b0, t, henc, hstep⟩ := utf8Step_enc c bs
  rw [henc, List.cons_append, utf8Decode_cons, hstep]

theorem utf8_roundtrip (cs : List Char) :
    utf8Decode (utf8EncodeList cs) = cs := by
  induction cs with
  | nil =>
    rw [show utf8EncodeList [] = [] from rfl, utf8Decode]
  | cons c rest ih =>
    have : utf8EncodeList (c :: rest) = utf8EncodeChar c ++ utf8EncodeList rest := rfl
    rw [this, utf8Decode_encodeChar, ih]

theorem utf8EncodeChar_bytes_lt {c : Char} {x : Nat}
    (hx : x ∈ utf8EncodeChar c) : x < 256 := by
  have hv := char_toNat_lt c
  unfold utf8EncodeChar at hx
  split at hx
  · simp at hx
    omega
  · split at hx
    · simp at hx
      rcases hx with rfl | rfl <;> omega
    · split at hx
      · simp at hx
        rcases hx with rfl | rfl | rfl <;> omega
      · simp at hx
        rcases hx with rfl | rfl | rfl | rfl <;> omega

theorem utf8EncodeList_bytes_lt {cs : List Char} {x : Nat}
    (hx : x ∈ utf8EncodeList cs) : x < 256 := by
  induction cs with
  | nil => simp [utf8EncodeList] at hx
  | cons c rest ih =>
    have : utf8EncodeList (c :: rest) = utf8EncodeChar c ++ utf8EncodeList rest := rfl
    rw [this] at hx
    rcases List.mem_append.mp hx with h | h
    · exact utf8EncodeChar_bytes_lt h
    · exact ih h

/-- Base64 alphabet, as `base64.b64encode` uses it. -/
def b64Alphabet : List Char :=
  "ABCDEFGHIJKLMNOPQRSTUVWXYZabcdefghijklmnopqrstuvwxyz0123456789+/".data

def b64Char (n : Nat) : Char := b64Alphabet.getD n 'A'

def b64CharVal (c : Char) : Nat := b64Alphabet.indexOf c

def b64Encode : List Nat → List Char
  | a :: b :: c :: rest =>
      b64Char (a / 4) :: b64Char ((a % 4) * 16 + b / 16) ::
        b64Char ((b % 16) * 4 + c / 64) :: b64Char (c % 64) :: b64Encode rest
  | [a, b] =>
      [b64Char (a / 4), b64Char ((a % 4) * 16 + b / 16), b64Char ((b % 16) * 4), '=']
  | [a] => [b64Char (a / 4), b64Char ((a % 4) * 16), '=', '=']
  | [] => []

def b64Decode : List Char → List Nat
  | c0 :: c1 :: c2 :: c3 :: rest =>
    if c3 = '=' then
      if c2 = '=' then [b64CharVal c0 * 4 + b64CharVal c1 / 16]
      else [b64CharVal c0 * 4 + b64CharVal c1 / 16,
            (b64CharVal c1 % 16) * 16 + b64CharVal c2 / 4]
    else
      (b64CharVal c0 * 4 + b64CharVal c1 / 16) ::
        ((b64CharVal c1 % 16) * 16 + b64CharVal c2 / 4) ::
        ((b64CharVal c2 % 4) * 64 + b64CharVal c3) :: b64Decode rest
  | _ => []

theorem b64_val_char_fin : ∀ n : Fin 64, b64CharVal (b64Char n.val) = n.val := by decide

theorem b64_char_ne_pad_fin : ∀ n : Fin 64, b64Char n.val ≠ '=' := by decide

theorem b64_val_char {n : Nat} (h : n < 64) : b64CharVal (b64Char n) = n :=
  b64_val_char_fin ⟨n, h⟩

theorem b64_char_ne_pad {n : Nat} (h : n < 64) : b64Char n ≠ '=' :=
  b64_char_ne_pad_fin ⟨n, h⟩

theorem b64_roundtrip : ∀ l : List Nat, (∀ x ∈ l, x < 256) →
    b64Decode (b64Encode l) = l
  | [], _ => rfl
  | [a], h => by
    have ha : a < 256 := h a (by simp)
    rw [show b64Encode [a] = [b64Char (a / 4), b64Char ((a % 4) * 16), '=', '='] from rfl]
    rw [show b64Decode [b64Char (a / 4), b64Char ((a % 4) * 16), '=', '='] =
      if ('=' : Char) = '=' then
        if ('=' : Char) = '=' then [b64CharVal (b64Char (a / 4)) * 4 + b64CharVal (b64Char ((a % 4) * 16)) / 16]
        else [b64CharVal (b64Char (a / 4)) * 4 + b64CharVal (b64Char ((a % 4) * 16)) / 16,
          (b64CharVal (b64Char ((a % 4) * 16)) % 16) * 16 + b64CharVal '=' / 4]
      else (b64CharVal (b64Char (a / 4)) * 4 + b64CharVal (b64Char ((a % 4) * 16)) / 16) ::
        ((b64CharVal (b64Char ((a % 4) * 16)) % 16) * 16 + b64CharVal '=' / 4) ::
        ((b64CharVal '=' % 4) * 64 + b64CharVal '=') :: b64Decode [] from rfl]
    rw [if_pos rfl, if_pos rfl, b64_val_char (by omega), b64_val_char (by omega)]
    congr 1
    omega
  | [a, b], h => by
    have ha : a < 256 := h a (by simp)
    have hb : b < 256 := h b (by simp)
    rw [show b64Encode [a, b] =
      [b64Char (a / 4), b64Char ((a % 4) * 16 + b / 16), b64Char ((b % 16) * 4), '='] from rfl]
    rw [b64Decode]
    rw [if_pos rfl, if_neg (b64_char_ne_pad (by omega)),
      b64_val_char (by omega), b64_val_char (by omega), b64_val_char (by omega)]
    have e1 : a / 4 * 4 + ((a % 4) * 16 + b / 16) / 16 = a := by omega
    have e2 : (((a % 4) * 16 + b / 16) % 16) * 16 + (b % 16) * 4 / 4 = b := by omega
    rw [e1, e2]
  | a :: b :: c :: rest, h => by
    have ha : a < 256 := h a (by simp)
    have hb : b < 256 := h b (by simp)
    have hc : c < 256 := h c (by simp)
    have ih := b64_roundtrip rest (fun x hx => h x (by simp [hx]))
    rw [show b64Encode (a :: b :: c :: rest) =
      b64Char (a / 4) :: b64Char ((a % 4) * 16 + b / 16) ::
        b64Char ((b % 16) * 4 + c / 64) :: b64Char (c % 64) :: b64Encode rest from rfl]
    rw [b64Decode]
    rw [if_neg (b64_char_ne_pad (by omega)),
      b64_val_char (by omega), b64_val_char (by omega), b64_val_char (by omega),
      b64_val_char (by omega), ih]
    have e1 : a / 4 * 4 + ((a % 4) * 16 + b / 16) / 16 = a := by omega
    have e2 : (((a % 4) * 16 + b / 16) % 16) * 16 + ((b % 16) * 4 + c / 64) / 4 = b := by omega
    have e3 : (((b % 16) * 4 + c / 64) % 4) * 64 + c % 64 = c := by omega
    rw [e1, e2, e3]

/-- Payload stored in the document's data field (source line 75):
`base64.b64encode(content.encode()).decode()`, i.e. the base64 rendering
of the UTF-8 bytes of the content. -/
def encodePayload (content : String) : List Char :=
  b64Encode (utf8EncodeList content.data)

/-- Decoding a stored payload: base64-decode, then UTF-8-decode. -/
def decodePayload (payload : List Char) : String :=
  ⟨utf8Decode (b64Decode payload)⟩

theorem payload_roundtrip (content : String) :
    decodePayload (encodePayload content) = content := by
  unfold decodePayload encodePayload
  rw [b64_roundtrip _ (fun x hx => utf8EncodeList_bytes_lt hx), utf8_roundtrip,
    string_mk_data]

/-- A CouchDB document as the daemon writes it (source lines 72-78): the
fields `data`, `mtime`, `size` and `type`.  The `_id` is the key under
which the store is addressed and travels alongside; `_rev` is managed by
the store client and opaque to the engine. -/
structure Doc where
  data : List Char
  mtime : Nat
  size : Nat
  type : String
deriving DecidableEq

/-- The document `_sync_file_to_db` saves (source lines 74-78): every one
of the four fields is overwritten, so the result depends only on the file
content and the engine clock (`int(time.time() * 1000)`). -/
def mkDoc (content : String) (clock : Nat) : Doc :=
  { data := encodePayload content
    mtime := clock
    size := content.length
    type := "plain" }

/-- Response of the store client to a get (`self.db[doc_id]`): the
document, a ResourceNotFound error, or any other store error. -/
inductive GetResult
  | found (d : Doc)
  | notFound
  | fail (e : String)
deriving DecidableEq

/-- Response of the store client to a save (`self.db.save(doc)`). -/
inductive SaveResult
  | ok
  | fail (e : String)
deriving DecidableEq

/-- Response of the store client to a delete (`self.db.delete(doc)`):
success, a ResourceNotFound error, or any other store error. -/
inductive DelResult
  | ok
  | notFound
  | fail (e : String)
deriving DecidableEq

/-- The CouchDB client as a response oracle: it is an external
collaborator, so its responses are inputs of the model. -/
structure Store where
  get : String → GetResult
  save : String → Doc → SaveResult
  del : String → Doc → DelResult

/-- A store operation the engine issues, recorded in order. -/
inductive StoreOp
  | get (id : String)
  | save (id : String) (d : Doc)
  | delete (id : String) (d : Doc)
deriving DecidableEq

/-- A log line the engine emits (logger.info / logger.error calls). -/
inductive LogLine
  | fileChanged (name : String)
  | synced (id : String)
  | syncFailed (id : String) (err : String)
  | deletedFromDb (id : String)
deriving DecidableEq

/-- Content of one file on disk: decodable text, or bytes that
`read_text(encoding='utf-8')` rejects. -/
inductive FileData
  | text (content : String)
  | binary
deriving DecidableEq

/-- The local tree under the vault root: the regular files, keyed by their
path relative to the root, in enumeration order. -/
abbrev FileSystem := List (FPath × FileData)

/-- Model of `file_path.exists() and file_path.is_file()` plus the read:
the file's content when the path names a regular file. -/
def lookupFile (fs : FileSystem) (fp : FPath) : Option FileData :=
  (fs.find? (fun e => e.1 == fp)).map Prod.snd

/-- The engine's state: the local tree (never written by the engine) and
the `_syncing` marker set (a Python `set` of document ids). -/
structure EngineState where
  fs : FileSystem
  syncing : List String
deriving DecidableEq

/-- Model of `VaultSync._sync_file_to_db` (source lines 51-86).  Returns
the state after the call, the store operations issued and the log lines
emitted.  Control flow from the source: missing file → silent no-op;
id already in `_syncing` → silent no-op; otherwise add the marker, read
the file (a decode failure is caught by the generic `except` and logged),
get-or-create the document, overwrite its four fields, save (a save error
is caught and logged), and in all cases discard the marker (`finally`). -/
def sync_file_to_db (store : Store) (clock : Nat) (st : EngineState) (fp : FPath) :
    EngineState × List StoreOp × List LogLine :=
  match lookupFile st.fs fp with
  | none => (st, [], [])
  | some fdata =>
    let doc_id := doc_id_from_path fp
    if doc_id ∈ st.syncing then (st, [], [])
    else
      let syncing1 := st.syncing.insert doc_id
      match fdata with
      | .binary =>
        ({ st with syncing := syncing1.erase doc_id }, [],
          [.syncFailed doc_id "UnicodeDecodeError"])
      | .text content =>
        match store.get doc_id with
        | .fail e =>
          ({ st with syncing := syncing1.erase doc_id }, [.get doc_id],
            [.syncFailed doc_id e])
        | _ =>
          let doc := mkDoc content clock
          match store.save doc_id doc with
          | .ok =>
            ({ st with syncing := syncing1.erase doc_id },
              [.get doc_id, .save doc_id doc], [.synced doc_id])
          | .fail e =>
            ({ st with syncing := syncing1.erase doc_id },
              [.get doc_id, .save doc_id doc], [.syncFailed doc_id e])

/-- One step of `VaultSync.initial_sync`'s loop (source lines 93-97): the
`rglob("*.md")` filter on the entry's name, the reserved-subdirectory
filter on the absolute path's components, then `_sync_file_to_db`. -/
def initial_step (vaultParts : List String) (store : Store) (clock : Nat)
    (acc : EngineState × List StoreOp × List LogLine) (entry : FPath × FileData) :
    EngineState × List StoreOp × List LogLine :=
  if strEndsWith (entry.1.getLastD "") ".md" then
    if ".obsidian" ∈ vaultParts ++ entry.1 then acc
    else
      let r := sync_file_to_db store clock acc.1 entry.1
      (r.1, acc.2.1 ++ r.2.1, acc.2.2 ++ r.2.2)
  else acc

/-- Model of `VaultSync.initial_sync` (source lines 88-99): fold the step
over the tree in enumeration order. -/
def initial_sync (vaultParts : List String) (store : Store) (clock : Nat)
    (st : EngineState) : EngineState × List StoreOp × List LogLine :=
  st.fs.foldl (initial_step vaultParts store clock) (st, [], [])

/-- An inotify notification as `event_gen` yields it: the set of type
names, the containing directory's path string, and the entry name. -/
abbrev Event := List String × String × String

/-- What the watch loop does with one notification before any store
interaction. -/
inductive WatchAction
  | ignore
  | upsert (path : String) (filename : String)
  | deleteDoc (path : String) (filename : String)
deriving DecidableEq

/-- Source line 121: `'IN_CLOSE_WRITE' in type_names or 'IN_MOVED_TO' in
type_names`, the write-class test. -/
def writeClassEvent (tn : List String) : Bool :=
  tn.contains "IN_CLOSE_WRITE" || tn.contains "IN_MOVED_TO"

/-- Source line 126: `'IN_DELETE' in type_names or 'IN_MOVED_FROM' in
type_names`, the delete-class test. -/
def deleteClassEvent (tn : List String) : Bool :=
  tn.contains "IN_DELETE" || tn.contains "IN_MOVED_FROM"

/-- Classification of one notification in `VaultSync.watch_filesystem`
(source lines 107-126): skip when the filename is empty (falsy) or does
not end in ".md"; skip when the directory path contains ".obsidian" as a
substring; then a write-class event dispatches to upsert, else (`elif`) a
delete-class event dispatches to the delete branch; anything else falls
through and is ignored. -/
def watch_step (type_names : List String) (path filename : String) : WatchAction :=
  if (filename == "") || !strEndsWith filename ".md" then .ignore
  else if strContains path ".obsidian" then .ignore
  else if writeClassEvent type_names then .upsert path filename
  else if deleteClassEvent type_names then .deleteDoc path filename
  else .ignore

/-- Model of `Path(path).relative_to(self.vault_path)` followed by the
component decomposition: the event directory's components with the vault
prefix removed; `none` models the ValueError raised when the path is not
under the vault root. -/
def relParts (vaultParts : List String) (p : String) : Option (List String) :=
  if vaultParts.isPrefixOf (strComponents p) then
    some ((strComponents p).drop vaultParts.length)
  else none

/-- The delete branch of the watch loop (source lines 126-133): fetch the
document and delete it, inside a `try` whose only handler catches
ResourceNotFound (`pass`).  Any other store error escapes as an exception
(`Except.error`). -/
def delete_branch (store : Store) (doc_id : String) :
    Except String (List StoreOp × List LogLine) :=
  match store.get doc_id with
  | .notFound => .ok ([.get doc_id], [])
  | .fail e => .error e
  | .found d =>
    match store.del doc_id d with
    | .ok => .ok ([.get doc_id, .delete doc_id d], [.deletedFromDb doc_id])
    | .notFound => .ok ([.get doc_id, .delete doc_id d], [])
    | .fail e => .error e

/-- Processing of one notification by the watch loop: classification,
then the upsert dispatch (whose body catches every exception) or the
delete branch (whose uncaught errors escape with the state at that
moment). -/
def handle_event (vaultParts : List String) (store : Store) (clock : Nat)
    (st : EngineState) (ev : Event) : Except (EngineState × String) EngineState :=
  match watch_step ev.1 ev.2.1 ev.2.2 with
  | .ignore => .ok st
  | .upsert p f =>
    match relParts vaultParts p with
    | none => .error (st, "ValueError")
    | some parts => .ok (sync_file_to_db store clock st (parts ++ [f])).1
  | .deleteDoc p f =>
    match relParts vaultParts p with
    | none => .error (st, "ValueError")
    | some parts =>
      match delete_branch store (doc_id_from_path (parts ++ [f])) with
      | .ok _ => .ok st
      | .error e => .error (st, e)

/-- Model of the blocking loop of `VaultSync.watch_filesystem` over a
finite prefix of the notification stream: process notifications strictly
in order; an uncaught exception aborts the loop, carrying the state at
that point (at top level the daemon logs it as fatal and exits). -/
def watch_loop (vaultParts : List String) (store : Store) (clock : Nat)
    (st : EngineState) : List Event → Except (EngineState × String) EngineState
  | [] => .ok st
  | ev :: rest =>
    match handle_event vaultParts store clock st ev with
    | .ok st2 => watch_loop vaultParts store clock st2 rest
    | .error e => .error e

/-- The engine state a finished or aborted watch loop leaves behind. -/
def loopState (r : Except (EngineState × String) EngineState) : EngineState :=
  match r with
  | .ok st => st
  | .error (st, _) => st

theorem insert_erase_of_not_mem {a : String} {l : List String} (h : a ∉ l) :
    (l.insert a).erase a = l := by
  rw [List.insert_of_not_mem h, List.erase_cons_head]

/-- Source lines 62-86: every branch of `_sync_file_to_db` leaves the
engine state as it found it — the `finally` discards exactly the marker
the `try` added, and the filesystem is never written. -/
theorem sync_state_eq (store : Store) (clock : Nat) (st : EngineState) (fp : FPath) :
    (sync_file_to_db store clock st fp).1 = st := by
  by_cases hb : doc_id_from_path fp ∈ st.syncing
  · simp only [sync_file_to_db]
    split
    · rfl
    · rw [if_pos hb]
  · have hkey := insert_erase_of_not_mem hb
    simp only [sync_file_to_db]
    split
    · rfl
    · rw [if_neg hb]
      split
      · simp [hkey]
      · split
        · simp [hkey]
        · split
          · simp [hkey]
          · simp [hkey]

/-- Claim C6: if the identifier derived from the path is already marked
busy in `_syncing`, `_sync_file_to_db` returns as a silent no-op: the
state is unchanged, no store operation is issued and nothing is logged.
(When the file does not exist the call is likewise a silent no-op, so the
equality needs only the busy mark.) -/
theorem upsert_busy_noop (store : Store) (clock : Nat) (st : EngineState) (fp : FPath)
    (h : doc_id_from_path fp ∈ st.syncing) :
    sync_file_to_db store clock st fp = (st, [], []) := by
  simp only [sync_file_to_db]
  split
  · rfl
  · rw [if_pos h]

/-- A store whose get answers not-found and whose mutations succeed. -/
def okStore : Store :=
  { get := fun _ => .notFound
    save := fun _ _ => .ok
    del := fun _ _ => .ok }

/-- Claim C6 witness: the no-op at a concrete busy state. -/
theorem upsert_busy_noop_witness :
    sync_file_to_db okStore 0 ⟨[(["a.md"], .text "hi")], ["a.md"]⟩ ["a.md"] =
      (⟨[(["a.md"], .text "hi")], ["a.md"]⟩, [], []) :=
  upsert_busy_noop okStore 0 ⟨[(["a.md"], .text "hi")], ["a.md"]⟩ ["a.md"] (by decide)

/-- Claim C8: an invocation of Upsert that passes the busy-mark check
(so the identifier was not yet marked) leaves the marker set without the
identifier when it returns, whatever the outcome of the read, encode and
save steps — the `finally` clears it unconditionally. -/
theorem upsert_marker_cleared (store : Store) (clock : Nat) (st : EngineState)
    (fp : FPath) (hb : doc_id_from_path fp ∉ st.syncing) :
    doc_id_from_path fp ∉ (sync_file_to_db store clock st fp).1.syncing := by
  rw [sync_state_eq]
  exact hb

/-- Claim C8 witness: the marker is gone after a concrete successful sync. -/
theorem upsert_marker_cleared_witness :
    doc_id_from_path ["a.md"] ∉
      (sync_file_to_db okStore 0 ⟨[(["a.md"], .text "hi")], []⟩ ["a.md"]).1.syncing :=
  upsert_marker_cleared okStore 0 ⟨[(["a.md"], .text "hi")], []⟩ ["a.md"] (by decide)

/-- Claim C7: when the document does not exist remotely, the delete
branch silently succeeds — it issues the failed fetch only (no delete
against the store), reports no error and raises nothing. -/
theorem delete_not_found_ok (store : Store) (id : String)
    (h : store.get id = .notFound) :
    delete_branch store id = .ok ([.get id], []) := by
  unfold delete_branch
  rw [h]

/-- Claim C7 witness: the idempotent delete at a concrete store. -/
theorem delete_not_found_ok_witness :
    delete_branch okStore "notes/a.md" = .ok ([.get "notes/a.md"], []) :=
  delete_not_found_ok okStore "notes/a.md" rfl

/-- Inversion of the trace: a save operation is issued exactly from the
two save arms, with the document built by `mkDoc` from the file's text
content and the engine clock. -/
theorem sync_save_mem {store : Store} {clock : Nat} {st : EngineState}
    {fp : FPath} {id : String} {d : Doc}
    (h : StoreOp.save id d ∈ (sync_file_to_db store clock st fp).2.1) :
    ∃ content, lookupFile st.fs fp = some (.text content) ∧
      id = doc_id_from_path fp ∧ d = mkDoc content clock := by
  simp only [sync_file_to_db] at h
  split at h
  · simp at h
  · rename_i fdata hlf
    split at h
    · simp at h
    · split at h
      · simp at h
      · rename_i content
        split at h
        · simp at h
        · split at h
          · simp at h
            exact ⟨content, hlf, h.1, h.2⟩
          · simp at h
            exact ⟨content, hlf, h.1, h.2⟩

/-- Claim C3, counterexample: the stored `size` field is `len(content)`,
a count of characters, not of UTF-8 bytes.  For the one-character content
consisting of the letter e with acute accent, a successful upsert saves a
document with size 1, while the decoded content occupies 2 bytes. -/
theorem doc_size_not_byte_length_cex :
    (sync_file_to_db okStore 5 ⟨[(["notes", "x.md"], .text "é")], []⟩
        ["notes", "x.md"]).2.1 =
      [.get "notes/x.md", .save "notes/x.md" (mkDoc "é" 5)] ∧
    (mkDoc "é" 5).size = 1 ∧
    (utf8EncodeList "é".data).length = 2 ∧ (1 : Nat) ≠ 2 := by
  refine ⟨rfl, rfl, rfl, by decide⟩

/-- Claim C3, amended: for every file successfully upserted the stored
document's `size` field equals the number of characters (code points) of
the decoded content — which equals the byte length only for ASCII content
such as "hello" — and decoding the stored payload (base64, then UTF-8)
recovers the file's text content exactly. -/
theorem upsert_doc_fields (store : Store) (clock : Nat) (st : EngineState)
    (fp : FPath) (id : String) (d : Doc)
    (h : StoreOp.save id d ∈ (sync_file_to_db store clock st fp).2.1) :
    ∃ content, lookupFile st.fs fp = some (.text content) ∧
      d.size = content.length ∧ decodePayload d.data = content := by
  obtain ⟨content, hlf, _, hd⟩ := sync_save_mem h
  refine ⟨content, hlf, ?_, ?_⟩
  · rw [hd]
    rfl
  · rw [hd]
    exact payload_roundtrip content

/-- Claim C3 witness: the amended statement at the scenario of the spec,
a file notes/a.md with content "hello" (length 5). -/
theorem upsert_doc_fields_witness :
    ∃ content,
      lookupFile ([(["notes", "a.md"], FileData.text "hello")] : FileSystem)
        ["notes", "a.md"] = some (.text content) ∧
      (mkDoc "hello" 7).size = content.length ∧
      decodePayload (mkDoc "hello" 7).data = content :=
  upsert_doc_fields okStore 7 ⟨[(["notes", "a.md"], .text "hello")], []⟩
    ["notes", "a.md"] "notes/a.md" (mkDoc "hello" 7) (by decide)

/-- Claim C5: two successive Upserts of the same unchanged file (whatever
the store answers, and at whatever engine clocks) save documents whose
payload, size and type fields agree; only the `mtime` field may differ,
because it is the only field taken from the engine clock. -/
theorem upsert_idempotent (store1 store2 : Store) (t1 t2 : Nat)
    (st : EngineState) (fp : FPath) (id1 id2 : String) (d1 d2 : Doc)
    (h1 : StoreOp.save id1 d1 ∈ (sync_file_to_db store1 t1 st fp).2.1)
    (h2 : StoreOp.save id2 d2 ∈
      (sync_file_to_db store2 t2 (sync_file_to_db store1 t1 st fp).1 fp).2.1) :
    d1.data = d2.data ∧ d1.size = d2.size ∧ d1.type = d2.type := by
  obtain ⟨c1, hf1, _, hd1⟩ := sync_save_mem h1
  rw [sync_state_eq] at h2
  obtain ⟨c2, hf2, _, hd2⟩ := sync_save_mem h2
  have hc : c1 = c2 := by
    rw [hf1] at hf2
    injection hf2 with hf2
    injection hf2
  subst hc
  rw [hd1, hd2]
  exact ⟨rfl, rfl, rfl⟩

/-- Claim C5 witness: the idempotence at a concrete file synced twice at
clocks 1 and 2. -/
theorem upsert_idempotent_witness :
    (mkDoc "hi" 1).data = (mkDoc "hi" 2).data ∧
      (mkDoc "hi" 1).size = (mkDoc "hi" 2).size ∧
      (mkDoc "hi" 1).type = (mkDoc "hi" 2).type :=
  upsert_idempotent okStore okStore 1 2 ⟨[(["a.md"], .text "hi")], []⟩ ["a.md"]
    "a.md" "a.md" (mkDoc "hi" 1) (mkDoc "hi" 2) (by decide) (by decide)

/-- Claim C9: when the file's bytes do not decode as text, the generic
`except` logs a per-file error, no store operation at all is issued (in
particular no document is created or updated), the state is unchanged,
and the watch loop goes on to the next notification exactly as if the
event had not occurred. -/
theorem upsert_decode_failure (store : Store) (clock : Nat) (st : EngineState)
    (fp : FPath) (hf : lookupFile st.fs fp = some .binary)
    (hb : doc_id_from_path fp ∉ st.syncing) :
    sync_file_to_db store clock st fp =
      (st, [], [.syncFailed (doc_id_from_path fp) "UnicodeDecodeError"]) ∧
    ∀ (vaultParts tn : List String) (path fn : String) (parts : List String)
      (rest : List Event),
      watch_step tn path fn = .upsert path fn →
      relParts vaultParts path = some parts →
      parts ++ [fn] = fp →
      watch_loop vaultParts store clock st ((tn, path, fn) :: rest) =
        watch_loop vaultParts store clock st rest := by
  have hkey := insert_erase_of_not_mem hb
  constructor
  · simp only [sync_file_to_db, hf]
    rw [if_neg hb]
    simp [hkey]
  · intro vaultParts tn path fn parts rest hstep hrel hfp
    have hev : handle_event vaultParts store clock st (tn, path, fn) = .ok st := by
      unfold handle_event
      simp only [hstep, hrel, hfp, sync_state_eq]
    rw [watch_loop, hev]

/-- Claim C9 witness: a concrete undecodable file notes/bad.md, observed
through the live watch with one subsequent notification. -/
theorem upsert_decode_failure_witness :
    sync_file_to_db okStore 0 ⟨[(["notes", "bad.md"], .binary)], []⟩ ["notes", "bad.md"] =
      (⟨[(["notes", "bad.md"], .binary)], []⟩, [],
        [.syncFailed (doc_id_from_path ["notes", "bad.md"]) "UnicodeDecodeError"]) ∧
    ∀ (vaultParts tn : List String) (path fn : String) (parts : List String)
      (rest : List Event),
      watch_step tn path fn = .upsert path fn →
      relParts vaultParts path = some parts →
      parts ++ [fn] = ["notes", "bad.md"] →
      watch_loop vaultParts okStore 0 ⟨[(["notes", "bad.md"], .binary)], []⟩
          ((tn, path, fn) :: rest) =
        watch_loop vaultParts okStore 0 ⟨[(["notes", "bad.md"], .binary)], []⟩ rest :=
  upsert_decode_failure okStore 0 ⟨[(["notes", "bad.md"], .binary)], []⟩
    ["notes", "bad.md"] (by decide) (by decide)

theorem initial_step_fs (vaultParts : List String) (store : Store) (clock : Nat)
    (acc : EngineState × List StoreOp × List LogLine) (entry : FPath × FileData) :
    (initial_step vaultParts store clock acc entry).1.fs = acc.1.fs := by
  unfold initial_step
  split
  · split
    · rfl
    · simp only [sync_state_eq]
  · rfl

theorem initial_fold_fs (vaultParts : List String) (store : Store) (clock : Nat)
    (l : List (FPath × FileData)) (acc : EngineState × List StoreOp × List LogLine) :
    (l.foldl (initial_step vaultParts store clock) acc).1.fs = acc.1.fs := by
  induction l generalizing acc with
  | nil => rfl
  | cons e rest ih =>
    rw [List.foldl_cons, ih, initial_step_fs]

theorem handle_event_fs (vaultParts : List String) (store : Store) (clock : Nat)
    (st : EngineState) (ev : Event) :
    (loopState (handle_event vaultParts store clock st ev)).fs = st.fs := by
  unfold handle_event
  split
  · rfl
  · split
    · rfl
    · simp only [loopState, sync_state_eq]
  · split
    · rfl
    · split
      · rfl
      · rfl

theorem watch_loop_fs (vaultParts : List String) (store : Store) (clock : Nat)
    (st : EngineState) (evs : List Event) :
    (loopState (watch_loop vaultParts store clock st evs)).fs = st.fs := by
  induction evs generalizing st with
  | nil => rfl
  | cons ev rest ih =>
    rw [watch_loop]
    have hev := handle_event_fs vaultParts store clock st ev
    cases hh : handle_event vaultParts store clock st ev with
    | ok st2 =>
      rw [hh] at hev
      rw [ih st2]
      exact hev
    | error er =>
      rw [hh] at hev
      exact hev

/-- Claim C10: no operation of the engine — one Upsert, the bulk
reconciliation, the delete branch (which touches no engine state by
construction), or any run of the live watch loop, aborted or not — ever
changes the local filesystem component of the state: the local tree is
only read. -/
theorem engine_never_writes_fs :
    (∀ (store : Store) (clock : Nat) (st : EngineState) (fp : FPath),
      (sync_file_to_db store clock st fp).1.fs = st.fs) ∧
    (∀ (vaultParts : List String) (store : Store) (clock : Nat) (st : EngineState),
      (initial_sync vaultParts store clock st).1.fs = st.fs) ∧
    (∀ (vaultParts : List String) (store : Store) (clock : Nat) (st : EngineState)
      (evs : List Event),
      (loopState (watch_loop vaultParts store clock st evs)).fs = st.fs) := by
  refine ⟨?_, ?_, ?_⟩
  · intro store clock st fp
    rw [sync_state_eq]
  · intro vaultParts store clock st
    unfold initial_sync
    rw [initial_fold_fs]
  · intro vaultParts store clock st evs
    exact watch_loop_fs vaultParts store clock st evs

/-- A store where the document exists and the delete fails with a
non-not-found server error. -/
def failDelStore : Store :=
  { get := fun _ => .found (mkDoc "x" 0)
    save := fun _ _ => .ok
    del := fun _ _ => .fail "ServerError" }

/-- Claim C4, counterexample: the delete branch's `try` catches only
ResourceNotFound, so a different store error while deleting escapes
uncaught and aborts the watch loop — here a two-notification stream stops
at the first (a delete whose store delete fails with "ServerError"); the
second notification, a qualifying write, is never consumed.  At top level
the daemon logs it as a fatal error and exits non-zero instead of
continuing. -/
theorem delete_error_crashes_cex :
    watch_loop ["opt", "vaults", "personal"] failDelStore 0 ⟨[], []⟩
      [(["IN_DELETE"], "/opt/vaults/personal/notes", "a.md"),
       (["IN_CLOSE_WRITE"], "/opt/vaults/personal/notes", "b.md")] =
      .error (⟨[], []⟩, "ServerError") := by
  rfl

/-- Claim C4, amended: any store error other than not-found during
delete propagation — whether raised by the fetch (`self.db[doc_id]`,
source line 129) or by the delete (`self.db.delete(doc)`, source line
130), the only two store calls of the branch — is not caught inside the
watch loop: the loop aborts with that error carried out of it (the
daemon's top level then logs it as fatal and exits non-zero), and no
subsequent filesystem notification is consumed, whatever notifications
follow. -/
theorem delete_error_aborts_loop (vaultParts : List String) (store : Store)
    (clock : Nat) (st : EngineState) (tn : List String) (path fn : String)
    (rest : List Event) (parts : List String) (e : String)
    (hstep : watch_step tn path fn = .deleteDoc path fn)
    (hrel : relParts vaultParts path = some parts)
    (herr : store.get (doc_id_from_path (parts ++ [fn])) = .fail e ∨
      ∃ d, store.get (doc_id_from_path (parts ++ [fn])) = .found d ∧
        store.del (doc_id_from_path (parts ++ [fn])) d = .fail e) :
    watch_loop vaultParts store clock st ((tn, path, fn) :: rest) =
      .error (st, e) := by
  have hdb : delete_branch store (doc_id_from_path (parts ++ [fn])) = .error e := by
    unfold delete_branch
    rcases herr with hget | ⟨d, hget, hdel⟩
    · simp only [hget]
    · simp only [hget, hdel]
  have hev : handle_event vaultParts store clock st (tn, path, fn) = .error (st, e) := by
    unfold handle_event
    simp only [hstep, hrel, hdb]
  rw [watch_loop, hev]

/-- A store whose fetch itself fails with a non-not-found server error. -/
def failGetStore : Store :=
  { get := fun _ => .fail "ServerError"
    save := fun _ _ => .ok
    del := fun _ _ => .ok }

/-- Claim C4 witness: the amended statement at concrete failing stores
and one-notification streams, once for a failing fetch and once for a
failing delete. -/
theorem delete_error_aborts_loop_witness :
    watch_loop ["opt", "vaults", "personal"] failGetStore 0 ⟨[], []⟩
      [(["IN_DELETE"], "/opt/vaults/personal/notes", "a.md")] =
      .error (⟨[], []⟩, "ServerError") ∧
    watch_loop ["opt", "vaults", "personal"] failDelStore 0 ⟨[], []⟩
      [(["IN_DELETE"], "/opt/vaults/personal/notes", "a.md")] =
      .error (⟨[], []⟩, "ServerError") :=
  ⟨delete_error_aborts_loop ["opt", "vaults", "personal"] failGetStore 0 ⟨[], []⟩
    ["IN_DELETE"] "/opt/vaults/personal/notes" "a.md" [] ["notes"]
    "ServerError" (by decide) (by decide) (Or.inl rfl),
   delete_error_aborts_loop ["opt", "vaults", "personal"] failDelStore 0 ⟨[], []⟩
    ["IN_DELETE"] "/opt/vaults/personal/notes" "a.md" [] ["notes"]
    "ServerError" (by decide) (by decide) (Or.inr ⟨mkDoc "x" 0, rfl, rfl⟩)⟩

/-- Claim C2, counterexample: the watch loop's reserved-subdirectory test
is `'.obsidian' in path`, a substring test on the directory string, not a
test that the path lies under the `.obsidian` subdirectory.  A close-
after-write for a.md inside the directory x.obsidian.d — which is not
under any `.obsidian` component — has a name, matches the tracked
extension and is outside the reserved subdirectory, so per the claim it
should dispatch Upsert; the code ignores it. -/
theorem watch_ignore_substring_cex :
    watch_step ["IN_CLOSE_WRITE"] "/opt/vaults/personal/x.obsidian.d" "a.md" =
      .ignore ∧
    ¬(("a.md" : String) = "" ∨ strEndsWith "a.md" ".md" = false ∨
      underReserved (strComponents "/opt/vaults/personal/x.obsidian.d")) := by
  refine ⟨by decide, by decide⟩

/-- Claim C2, amended: a live-watch notification is ignored (dispatches
neither Upsert nor Delete Propagation) exactly when the entry has no
name, or the name does not end in ".md", or the directory path contains
".obsidian" as a substring (a wider net than "lies under the reserved
subdirectory"), or the event is of neither the write class nor the
delete class; otherwise a write-class event (close-after-write or
moved-in) dispatches Upsert, and a delete-class event that is not also
write-class (delete or moved-out) dispatches Delete Propagation. -/
theorem watch_step_characterization (tn : List String) (path fn : String) :
    (watch_step tn path fn = .ignore ↔
      (fn = "" ∨ strEndsWith fn ".md" = false ∨ strContains path ".obsidian" = true ∨
        (writeClassEvent tn = false ∧ deleteClassEvent tn = false))) ∧
    (watch_step tn path fn = .upsert path fn ↔
      (fn ≠ "" ∧ strEndsWith fn ".md" = true ∧ strContains path ".obsidian" = false ∧
        writeClassEvent tn = true)) ∧
    (watch_step tn path fn = .deleteDoc path fn ↔
      (fn ≠ "" ∧ strEndsWith fn ".md" = true ∧ strContains path ".obsidian" = false ∧
        writeClassEvent tn = false ∧ deleteClassEvent tn = true)) := by
  by_cases h1 : fn = ""
  · have hs : watch_step tn path fn = .ignore := by
      unfold watch_step
      rw [if_pos (by simp [h1])]
    rw [hs]
    simp [h1]
  · cases h2 : strEndsWith fn ".md" with
    | false =>
      have hs : watch_step tn path fn = .ignore := by
        unfold watch_step
        rw [if_pos (by simp [h2])]
      rw [hs]
      simp [h1, h2]
    | true =>
      cases h3 : strContains path ".obsidian" with
      | true =>
        have hs : watch_step tn path fn = .ignore := by
          unfold watch_step
          rw [if_neg (by simp [h1, h2]), if_pos h3]
        rw [hs]
        simp [h1, h2, h3]
      | false =>
        cases hw : writeClassEvent tn with
        | true =>
          have hs : watch_step tn path fn = .upsert path fn := by
            unfold watch_step
            rw [if_neg (by simp [h1, h2]), if_neg (by simp [h3]), if_pos hw]
          rw [hs]
          simp [h1, h2, h3, hw]
        | false =>
          cases hd : deleteClassEvent tn with
          | true =>
            have hs : watch_step tn path fn = .deleteDoc path fn := by
              unfold watch_step
              rw [if_neg (by simp [h1, h2]), if_neg (by simp [h3]),
                if_neg (by simp [hw]), if_pos hd]
            rw [hs]
            simp [h1, h2, h3, hw, hd]
          | false =>
            have hs : watch_step tn path fn = .ignore := by
              unfold watch_step
              rw [if_neg (by simp [h1, h2]), if_neg (by simp [h3]),
                if_neg (by simp [hw]), if_neg (by simp [hd])]
            rw [hs]
            simp [h1, h2, h3, hw, hd]
